import Mathlib

/-!
Shallow embedding of `pdf_generator.py`, the single source file of this
repository, together with proofs about the schedule-table construction in
`generate_schedule_pdf` and the font-fallback logic of the `PDF` page
decorations (`header` / `footer`).

Python strings are embedded as Lean `String`; Python's string comparison
operators compare code points lexicographically, which is exactly the order
on `String.data : List Char` (each `Char` ordered by its code point), so the
embedding compares `.data` lists.  Python `dict`s holding heterogeneous
optional fields become structures with `Option` fields (`dict.get` with a
default becomes `Option.getD`), and the week-schedule `dict` keyed by day
name becomes a lookup function `String → Option (List Lesson)`.
-/

/-- A lesson entry, one element of a day's lesson list: a Python dict whose
fields `lesson`, `location` and `start_time` may each be absent. -/
structure Lesson where
  lesson : Option String
  location : Option String
  start_time : Option String
deriving DecidableEq

/-- The value part of one `TIME_SLOTS` entry: `{'start': ..., 'end': ...}`.
The source dict key `end` is a Lean keyword, hence the quoted field name. -/
structure SlotInfo where
  start : String
  «end» : String
deriving DecidableEq

/-- `PERSIAN_WEEKDAYS` from the source. -/
def PERSIAN_WEEKDAYS : List String :=
  ["شنبه", "یکشنبه", "دوشنبه", "سه‌شنبه", "چهارشنبه"]

/-- `ENGLISH_WEEKDAYS` from the source. -/
def ENGLISH_WEEKDAYS : List String :=
  ["saturday", "sunday", "monday", "tuesday", "wednesday"]

/-- `TIME_SLOTS` from the source: an insertion-ordered dict, embedded as the
list of its key/value pairs in source order. -/
def TIME_SLOTS : List (String × SlotInfo) :=
  [("کلاس اول", ⟨"08:00", "10:00"⟩),
   ("کلاس دوم", ⟨"10:00", "12:00"⟩),
   ("کلاس سوم", ⟨"13:00", "15:00"⟩),
   ("کلاس چهارم", ⟨"15:00", "17:00"⟩),
   ("کلاس پنجم", ⟨"17:00", "19:00"⟩)]

/-- Python `a < b` on strings: lexicographic comparison of code points. -/
def pyStrLt (a b : String) : Bool := decide (a.data < b.data)

/-- Python `a <= b` on strings. -/
def pyStrLe (a b : String) : Bool := decide (a.data ≤ b.data)

/-- The guard of the slot-search loop:
`if start_time and slot_info['start'] <= start_time < slot_info['end']`.
A missing (`None`) or empty start time is falsy and never matches. -/
def timeMatches (start_time : Option String) (info : SlotInfo) : Bool :=
  match start_time with
  | none => false
  | some t => decide (t ≠ "") && pyStrLe info.start t && pyStrLt t info.«end»

/-- The slot-search loop of `generate_schedule_pdf`: enumerate the slots in
order and stop (`break`) at the first one whose window matches, returning its
index; `none` models the sentinel `slot_index = -1` staying in place. -/
def findSlot (start_time : Option String) : List (String × SlotInfo) → Option Nat
  | [] => none
  | (_, info) :: rest =>
    if timeMatches start_time info then some 0
    else (findSlot start_time rest).map (· + 1)

/-- `lesson_text = f"{lesson.get('lesson', 'درس نامشخص')}\n{lesson.get('location', '-')}"`. -/
def lessonText (l : Lesson) : String :=
  l.lesson.getD "درس نامشخص" ++ "\n" ++ l.location.getD "-"

/-- The body of the `for lesson in lessons` loop: find the slot for the
lesson's start time and, if one matches, write the lesson text into
`row[slot_index]` (index shifted by one past the day-name column), appending
with the `'\n---\n'` separator when the cell is already occupied. -/
def placeLesson (row : List String) (l : Lesson) : List String :=
  match findSlot l.start_time TIME_SLOTS with
  | none => row
  | some i =>
    let slot_index := i + 1
    if row.getD slot_index "" = "-" then
      row.set slot_index (lessonText l)
    else
      row.set slot_index (row.getD slot_index "" ++ "\n---\n" ++ lessonText l)

/-- One weekday row: `row = [day_fa] + ['-'] * len(TIME_SLOTS)`, then the
lesson-placing loop over the day's lesson list. -/
def buildRow (day_fa : String) (lessons : List Lesson) : List String :=
  lessons.foldl placeLesson (day_fa :: List.replicate TIME_SLOTS.length "-")

/-- A week schedule: a Python dict from day name to lesson list, embedded as
a lookup function (`data.get(day_en, [])` becomes `(data day_en).getD []`). -/
abbrev WeekData := String → Option (List Lesson)

/-- `table_data` for one week-type page: one row per
`zip(ENGLISH_WEEKDAYS, PERSIAN_WEEKDAYS)` pair. -/
def buildTable (data : WeekData) : List (List String) :=
  (ENGLISH_WEEKDAYS.zip PERSIAN_WEEKDAYS).map
    (fun p => buildRow p.2 ((data p.1).getD []))

/-- `table_headers`: the day-name column header followed by one header per
time slot, `f'{slot_name}\n{slot_info["start"]} - {slot_info["end"]}'`. -/
def tableHeaders : List String :=
  "روز" :: TIME_SLOTS.map (fun s => s.1 ++ "\n" ++ s.2.start ++ " - " ++ s.2.«end»)

/-- The `'schedule'` field of the user record, with its two optional
week-schedule dicts. -/
structure Schedule where
  odd_week_schedule : Option WeekData
  even_week_schedule : Option WeekData

/-- The `user_data` argument of `generate_schedule_pdf`. -/
structure UserData where
  fullName : Option String
  schedule : Option Schedule

/-- The empty week-schedule dict `{}` used as the `.get` default. -/
def emptyWeekData : WeekData := fun _ => none

/-- The empty `'schedule'` dict `{}` used as the `.get` default: looking up
either week key in it yields nothing. -/
def emptySchedule : Schedule := ⟨none, none⟩

/-- One page of the produced document: the state `pdf.add_page()` plus
`pdf.header(...)` plus `pdf.auto_table(...)` contribute for one entry of the
`week_types` list — its label and emoji, the table headers and the
`table_data` grid handed to the layout library. -/
structure Page where
  label : String
  emoji : String
  headers : List String
  table : List (List String)
deriving DecidableEq

/-- The in-memory document accumulated by the `for week_info in week_types`
loop: its pages in the order they were added. -/
structure Document where
  pages : List Page
deriving DecidableEq

/-- `generate_schedule_pdf` up to the delegation to the fpdf layout engine:
read `fullName` and `schedule` with their defaults, build the `week_types`
list (odd week first, then even week), and emit one page per week type. -/
def generate_schedule_pdf (user_data : UserData) : Document :=
  let schedule := user_data.schedule.getD emptySchedule
  let week_types : List (String × String × WeekData) :=
    [("فرد", "🟣", schedule.odd_week_schedule.getD emptyWeekData),
     ("زوج", "🟢", schedule.even_week_schedule.getD emptyWeekData)]
  { pages := week_types.map (fun w =>
      { label := w.1, emoji := w.2.1, headers := tableHeaders,
        table := buildTable w.2.2 }) }

/-- Modelled from the spec: the final rendering step
`pdf.output(dest='S').encode('utf-8')` delegates to the third-party fpdf
library, which is not part of this repository.  The spec says the output is
"a byte sequence containing a rendered multi-page document"; this models it
as the UTF-8 bytes of a canonical textual serialization of the pages. -/
def renderBytes (d : Document) : List Nat :=
  ((d.pages.map (fun p =>
      p.label ++ p.emoji ++ String.join p.headers ++
        String.join (p.table.map String.join))).foldl (· ++ ·) "").toUTF8.toList.map
    UInt8.toNat

/-- The slice of fpdf state that the `PDF.header` / `PDF.footer` overrides
touch: the current font selection, the text cells written so far, the lines
printed to stderr, and the current page number. -/
structure PdfState where
  font_family : String
  font_style : String
  font_size : Nat
  cells : List String
  stderr : List String
  page_no : Nat
deriving DecidableEq

/-- `self.set_font(family, style, size)`. -/
def set_font (st : PdfState) (family style : String) (size : Nat) : PdfState :=
  { st with font_family := family, font_style := style, font_size := size }

/-- `self.cell(..., txt, ...)`: append the cell's text to the page. -/
def writeCell (st : PdfState) (txt : String) : PdfState :=
  { st with cells := st.cells ++ [txt] }

/-- `PDF.header`.  The outcome of the fpdf calls
`add_font('Vazir', ...); set_font('Vazir', '', 16)` is external to this
repository and is passed in as `fontLoad`: `.ok ()` when the font loads,
`.error e` when either call raises with message `e`.  The `except` branch
prints `f"Error loading font: {e}"` to stderr and falls back to
`set_font('Arial', 'B', 16)`; either way the function returns normally and
writes the three header lines. -/
def header (fontLoad : Except String Unit) (full_name week_label week_emoji : String)
    (st : PdfState) : PdfState :=
  let st1 :=
    match fontLoad with
    | .ok _ => set_font st "Vazir" "" 16
    | .error e =>
      let st' := { st with stderr := st.stderr ++ ["Error loading font: " ++ e] }
      set_font st' "Arial" "B" 16
  let st2 := writeCell st1 "برنامه هفتگی"
  let st3 := set_font st2 st2.font_family "" 14
  let st4 := writeCell st3 ("نام: " ++ full_name)
  writeCell st4 ("هفته " ++ week_label ++ " " ++ week_emoji)

/-- `PDF.footer`.  `set_font('Vazir', '', 8)` raises when the font was never
registered; the bare `except:` falls back to `set_font('Arial', '', 8)` and
the footer cells are written either way. -/
def footer (vazirLoaded : Bool) (st : PdfState) : PdfState :=
  let st1 := if vazirLoaded then set_font st "Vazir" "" 8 else set_font st "Arial" "" 8
  let st2 := writeCell st1 "@WeekStatusBot"
  writeCell st2 ("صفحه " ++ toString st.page_no ++ "/\x7bnb\x7d")

/-!
Spec-side definitions.  These follow the wording of the specification and the
claims, not the source, and exist to be compared with the embedded code.
-/

/-- Concatenation of a list of strings separated by `sep` — the spec's
"concatenated ... separated by the separator". -/
def joinSep (sep : String) : List String → String
  | [] => ""
  | [x] => x
  | x :: y :: rest => x ++ sep ++ joinSep sep (y :: rest)

/-- `sub` occurs contiguously inside `s` — the spec's "the cell's text
contains the lesson's formatted text". -/
def strContains (s sub : String) : Prop :=
  ∃ p q : String, s = p ++ sub ++ q

/-- Numeric value of a digit character. -/
def digitVal (c : Char) : Nat := c.toNat - 48

/-- Minutes past midnight denoted by a zero-padded `HH:MM` string — the
spec's "numerical time ordering".  Returns `0` on any other shape. -/
def toMinutes (t : String) : Nat :=
  match t.data with
  | [h1, h2, _, m1, m2] =>
    60 * (10 * digitVal h1 + digitVal h2) + (10 * digitVal m1 + digitVal m2)
  | _ => 0

/-- `t` is a zero-padded `HH:MM` clock time: two digits, a colon, and two
digits denoting fewer than 60 minutes. -/
def isHHMM (t : String) : Prop :=
  ∃ h1 h2 m1 m2 : Char,
    t.data = [h1, h2, ':', m1, m2] ∧
    h1.isDigit = true ∧ h2.isDigit = true ∧ m1.isDigit = true ∧ m2.isDigit = true ∧
    10 * digitVal m1 + digitVal m2 < 60

/-- The `SlotInfo` of the `i`-th time slot (a dummy out of range). -/
def slotInfoAt (i : Nat) : SlotInfo := (TIME_SLOTS.getD i ("", ⟨"", ""⟩)).2

/-- The sublist, in input order, of the lessons that the slot-search loop
sends to slot `si`. -/
def slotLessons (si : Nat) (lessons : List Lesson) : List Lesson :=
  lessons.filter (fun l => decide (findSlot l.start_time TIME_SLOTS = some si))

/-- The claims' notion of a lesson "mapping to" slot `si`: its start time
exists and falls in the slot's half-open `[start, end)` window. -/
def inSlotWindow (si : Nat) (l : Lesson) : Bool :=
  match l.start_time with
  | none => false
  | some t => pyStrLe (slotInfoAt si).start t && pyStrLt t (slotInfoAt si).«end»

/-- Boolean recognizer for zero-padded `HH:MM` clock strings, equivalent to
`isHHMM` below. -/
def isHHMMb (t : String) : Bool :=
  match t.data with
  | [h1, h2, c, m1, m2] =>
    h1.isDigit && h2.isDigit && decide (c = ':') && m1.isDigit && m2.isDigit &&
      decide (10 * digitVal m1 + digitVal m2 < 60)
  | _ => false

/-- A blank page, used only as the out-of-range default for list indexing. -/
def emptyPage : Page := ⟨"", "", [], []⟩

/-!
Basic lemmas about the embedded table construction.
-/

theorem TIME_SLOTS_length : TIME_SLOTS.length = 5 := rfl

theorem getD_set_ne {α : Type} (l : List α) {i j : Nat} (a d : α) (h : i ≠ j) :
    (l.set i a).getD j d = l.getD j d := by
  simp [List.getD_eq_getElem?_getD, List.getElem?_set_ne h]

theorem getD_set_self {α : Type} (l : List α) {i : Nat} (a d : α) (h : i < l.length) :
    (l.set i a).getD i d = a := by
  simp [List.getD_eq_getElem?_getD, List.getElem?_set_self h]

theorem placeLesson_length (row : List String) (l : Lesson) :
    (placeLesson row l).length = row.length := by
  unfold placeLesson
  cases findSlot l.start_time TIME_SLOTS with
  | none => rfl
  | some i => simp only []; split <;> simp [List.length_set]

theorem foldl_placeLesson_length (lessons : List Lesson) (row : List String) :
    (lessons.foldl placeLesson row).length = row.length := by
  induction lessons generalizing row with
  | nil => rfl
  | cons l ls ih => simp [List.foldl_cons, ih, placeLesson_length]

theorem buildRow_length (fa : String) (lessons : List Lesson) :
    (buildRow fa lessons).length = 6 := by
  rw [buildRow, foldl_placeLesson_length]
  rfl

theorem timeMatches_iff (t : String) (info : SlotInfo) :
    timeMatches (some t) info = true ↔
      t ≠ "" ∧ info.start.data ≤ t.data ∧ t.data < info.«end».data := by
  simp [timeMatches, pyStrLe, pyStrLt, Bool.and_eq_true, and_assoc]

theorem timeMatches_none (info : SlotInfo) : timeMatches none info = false := rfl

theorem findSlot_isSome_matches {st : Option String} :
    ∀ {slots : List (String × SlotInfo)} {i : Nat},
      findSlot st slots = some i →
      i < slots.length ∧ timeMatches st (slots.getD i ("", ⟨"", ""⟩)).2 = true := by
  intro slots
  induction slots with
  | nil => intro i h; simp [findSlot] at h
  | cons s rest ih =>
    intro i h
    rw [findSlot] at h
    split at h
    · rename_i hm
      cases h
      refine ⟨?_, by simpa using hm⟩
      simp only [List.length_cons]
      exact Nat.succ_pos _
    · cases hrest : findSlot st rest with
      | none => rw [hrest] at h; simp at h
      | some j =>
        rw [hrest] at h
        simp only [Option.map_some'] at h
        cases h
        obtain ⟨hlt, hmatch⟩ := ih hrest
        exact ⟨by simpa using Nat.succ_lt_succ hlt, by simpa using hmatch⟩

theorem findSlot_eq_some_of_first {st : Option String} :
    ∀ {slots : List (String × SlotInfo)} {i : Nat},
      i < slots.length →
      timeMatches st (slots.getD i ("", ⟨"", ""⟩)).2 = true →
      (∀ j, j < i → timeMatches st (slots.getD j ("", ⟨"", ""⟩)).2 = false) →
      findSlot st slots = some i := by
  intro slots
  induction slots with
  | nil => intro i h; simp at h
  | cons s rest ih =>
    intro i hi hmatch hfirst
    rw [findSlot]
    cases i with
    | zero =>
      simp only [List.getD_cons_zero] at hmatch
      simp [hmatch]
    | succ i =>
      have h0 : timeMatches st s.2 = false := by
        have := hfirst 0 (Nat.succ_pos i)
        simpa using this
      rw [h0]
      simp only [Bool.false_eq_true, if_false]
      have : findSlot st rest = some i := by
        apply ih (by simpa using Nat.lt_of_succ_lt_succ hi)
        · simpa using hmatch
        · intro j hj
          have := hfirst (j + 1) (Nat.succ_lt_succ hj)
          simpa using this
      rw [this]
      rfl

theorem findSlot_eq_none_of {st : Option String} :
    ∀ {slots : List (String × SlotInfo)},
      (∀ s ∈ slots, timeMatches st s.2 = false) →
      findSlot st slots = none := by
  intro slots
  induction slots with
  | nil => intro _; rfl
  | cons s rest ih =>
    intro h
    rw [findSlot, h s (by simp)]
    simp only [Bool.false_eq_true, if_false]
    rw [ih (fun x hx => h x (by simp [hx]))]
    rfl

theorem findSlot_none_start : findSlot none TIME_SLOTS = none := rfl

/-- The five slot windows are laid out in increasing order: each slot's end
bound is at most every later slot's start bound. -/
theorem slots_ordered :
    ∀ i < 5, ∀ j < 5, i < j →
      (slotInfoAt i).«end».data ≤ (slotInfoAt j).start.data := by decide

/-- The five slot windows are pairwise disjoint. -/
theorem slots_disjoint (t : String) :
    ∀ i < 5, ∀ j < 5, i ≠ j →
      ¬(((slotInfoAt i).start.data ≤ t.data ∧ t.data < (slotInfoAt i).«end».data) ∧
        ((slotInfoAt j).start.data ≤ t.data ∧ t.data < (slotInfoAt j).«end».data)) := by
  have key : ∀ i < 5, ∀ j < 5, i < j →
      ¬(((slotInfoAt i).start.data ≤ t.data ∧ t.data < (slotInfoAt i).«end».data) ∧
        ((slotInfoAt j).start.data ≤ t.data ∧ t.data < (slotInfoAt j).«end».data)) := by
    intro i hi j hj hij ⟨⟨_, hi2⟩, ⟨hj1, _⟩⟩
    have horder := slots_ordered i hi j hj hij
    exact absurd (lt_of_lt_of_le hi2 (le_trans horder hj1)) (lt_irrefl _)
  intro i hi j hj hne hboth
  rcases Nat.lt_or_ge i j with h | h
  · exact key i hi j hj h hboth
  · have h' : j < i := Nat.lt_of_le_of_ne h (fun e => hne e.symm)
    exact key j hj i hi h' ⟨hboth.2, hboth.1⟩

/-!
The separator-joined shape of an occupied cell.
-/

theorem joinSep_cons₂ (sep y : String) {ys : List String} (h : ys ≠ []) :
    joinSep sep (y :: ys) = y ++ sep ++ joinSep sep ys := by
  cases ys with
  | nil => exact absurd rfl h
  | cons z rest => rfl

theorem joinSep_append (sep x : String) {xs : List String} (h : xs ≠ []) :
    joinSep sep (xs ++ [x]) = joinSep sep xs ++ sep ++ x := by
  induction xs with
  | nil => exact absurd rfl h
  | cons y ys ih =>
    cases ys with
    | nil => rfl
    | cons z rest =>
      have hne : (z :: rest : List String) ≠ [] := by simp
      have hne' : (z :: rest ++ [x] : List String) ≠ [] := by simp
      rw [List.cons_append, joinSep_cons₂ sep y hne', ih hne, joinSep_cons₂ sep y hne]
      simp [String.append_assoc]

theorem string_eq_of_data {s t : String} (h : s.data = t.data) : s = t := by
  cases s; cases t; exact congrArg String.mk h

theorem lessonText_data (l : Lesson) :
    (lessonText l).data =
      (l.lesson.getD "درس نامشخص").data ++ '\n' :: (l.location.getD "-").data := by
  simp [lessonText, String.data_append]

theorem newline_mem_lessonText (l : Lesson) : '\n' ∈ (lessonText l).data := by
  rw [lessonText_data]
  simp

theorem joinSep_cons_head (sep x : String) (xs : List String) :
    ∃ r : String, joinSep sep (x :: xs) = x ++ r := by
  cases xs with
  | nil => exact ⟨"", (String.append_empty x).symm⟩
  | cons y rest =>
    exact ⟨sep ++ joinSep sep (y :: rest), by rw [joinSep, String.append_assoc]⟩

theorem joinSep_ne_dash (sep : String) {ms : List Lesson} (h : ms ≠ []) :
    joinSep sep (ms.map lessonText) ≠ "-" := by
  cases ms with
  | nil => exact absurd rfl h
  | cons m rest =>
    intro he
    obtain ⟨r, hr⟩ := joinSep_cons_head sep (lessonText m) (rest.map lessonText)
    rw [List.map_cons, hr] at he
    have hd := congrArg String.data he
    rw [String.data_append] at hd
    have hmem : '\n' ∈ ("-" : String).data := by
      rw [← hd]
      exact List.mem_append_left _ (newline_mem_lessonText m)
    simp at hmem

theorem strContains_joinSep (sep : String) {xs : List String} {x : String} (h : x ∈ xs) :
    strContains (joinSep sep xs) x := by
  induction xs with
  | nil => simp at h
  | cons y ys ih =>
    rcases List.mem_cons.mp h with rfl | hmem
    · obtain ⟨r, hr⟩ := joinSep_cons_head sep x ys
      refine ⟨"", r, ?_⟩
      rw [hr, String.empty_append]
    · have hne : ys ≠ [] := by rintro rfl; simp at hmem
      obtain ⟨p, q, hpq⟩ := ih hmem
      refine ⟨y ++ sep ++ p, q, ?_⟩
      rw [joinSep_cons₂ sep y hne, hpq]
      simp [String.append_assoc]

/-!
The central characterization: what each time-slot cell of a row holds.
-/

theorem placeLesson_getD_untouched (row : List String) (l : Lesson) (j : Nat)
    (h : ∀ i, findSlot l.start_time TIME_SLOTS = some i → j ≠ i + 1) :
    (placeLesson row l).getD j "" = row.getD j "" := by
  unfold placeLesson
  cases hfs : findSlot l.start_time TIME_SLOTS with
  | none => rfl
  | some i =>
    have hne : (i + 1) ≠ j := fun e => h i hfs e.symm
    simp only []
    split <;> rw [getD_set_ne _ _ _ hne]

theorem buildRow_append (fa : String) (ls : List Lesson) (l : Lesson) :
    buildRow fa (ls ++ [l]) = placeLesson (buildRow fa ls) l := by
  simp [buildRow, List.foldl_append]

theorem slotLessons_append (si : Nat) (ls : List Lesson) (l : Lesson) :
    slotLessons si (ls ++ [l]) =
      slotLessons si ls ++
        (if findSlot l.start_time TIME_SLOTS = some si then [l] else []) := by
  by_cases hc : findSlot l.start_time TIME_SLOTS = some si <;>
    simp [slotLessons, List.filter_append, List.filter, hc]

theorem cell_char (fa : String) (si : Nat) (hsi : si < 5) (lessons : List Lesson) :
    (buildRow fa lessons).getD (si + 1) "" =
      if slotLessons si lessons = [] then "-"
      else joinSep "\n---\n" ((slotLessons si lessons).map lessonText) := by
  induction lessons using List.reverseRecOn with
  | nil =>
    have h : slotLessons si ([] : List Lesson) = [] := rfl
    rw [h, if_pos rfl]
    interval_cases si <;> rfl
  | append_singleton ls l ih =>
    rw [buildRow_append]
    cases hfs : findSlot l.start_time TIME_SLOTS with
    | none =>
      have hsl : slotLessons si (ls ++ [l]) = slotLessons si ls := by
        rw [slotLessons_append, hfs]
        simp
      have hstep : placeLesson (buildRow fa ls) l = buildRow fa ls := by
        unfold placeLesson
        rw [hfs]
      rw [hstep, hsl, ih]
    | some i =>
      by_cases hisi : i = si
      · subst hisi
        have hsl : slotLessons i (ls ++ [l]) = slotLessons i ls ++ [l] := by
          rw [slotLessons_append, hfs, if_pos rfl]
        by_cases hms : slotLessons i ls = []
        · have hold : (buildRow fa ls).getD (i + 1) "" = "-" := by
            rw [ih, if_pos hms]
          have hstep : placeLesson (buildRow fa ls) l =
              (buildRow fa ls).set (i + 1) (lessonText l) := by
            unfold placeLesson
            rw [hfs]
            exact if_pos hold
          rw [hstep, getD_set_self _ _ _ (by rw [buildRow_length]; omega), hsl, hms]
          simp [joinSep]
        · have hold : (buildRow fa ls).getD (i + 1) "" =
              joinSep "\n---\n" ((slotLessons i ls).map lessonText) := by
            rw [ih, if_neg hms]
          have holdne : (buildRow fa ls).getD (i + 1) "" ≠ "-" := by
            rw [hold]
            exact joinSep_ne_dash _ hms
          have hstep : placeLesson (buildRow fa ls) l =
              (buildRow fa ls).set (i + 1)
                ((buildRow fa ls).getD (i + 1) "" ++ "\n---\n" ++ lessonText l) := by
            unfold placeLesson
            rw [hfs]
            exact if_neg holdne
          rw [hstep, getD_set_self _ _ _ (by rw [buildRow_length]; omega), hsl]
          rw [if_neg (by simp : ¬(slotLessons i ls ++ [l] = []))]
          rw [List.map_append, List.map_cons, List.map_nil]
          rw [joinSep_append _ _ (by simpa using hms), hold]
      · have hsl : slotLessons si (ls ++ [l]) = slotLessons si ls := by
          rw [slotLessons_append, hfs]
          simp [hisi]
        have hstep : (placeLesson (buildRow fa ls) l).getD (si + 1) "" =
            (buildRow fa ls).getD (si + 1) "" := by
          apply placeLesson_getD_untouched
          intro i' hi'
          rw [hfs] at hi'
          cases hi'
          omega
        rw [hstep, hsl, ih]

theorem buildTable_getD (data : WeekData) (di : Nat) (hdi : di < 5) :
    (buildTable data).getD di [] =
      buildRow (PERSIAN_WEEKDAYS.getD di "")
        ((data (ENGLISH_WEEKDAYS.getD di "")).getD []) := by
  interval_cases di <;> rfl

/-!
Which slot the search finds, characterized by the slot windows.
-/

theorem window_ne_empty {t : String} {si : Nat} (hsi : si < 5)
    (h : (slotInfoAt si).start.data ≤ t.data) : t ≠ "" := by
  rintro rfl
  interval_cases si <;> exact absurd h (by decide)

theorem findSlot_eq_some_iff {t : String} {si : Nat} (hsi : si < 5) :
    findSlot (some t) TIME_SLOTS = some si ↔
      (slotInfoAt si).start.data ≤ t.data ∧ t.data < (slotInfoAt si).«end».data := by
  constructor
  · intro h
    obtain ⟨_, hm⟩ := findSlot_isSome_matches h
    exact ((timeMatches_iff t _).mp hm).2
  · intro ⟨h1, h2⟩
    apply findSlot_eq_some_of_first (by rw [TIME_SLOTS_length]; exact hsi)
    · rw [timeMatches_iff]
      exact ⟨window_ne_empty hsi h1, h1, h2⟩
    · intro j hj
      cases hb : timeMatches (some t) (TIME_SLOTS.getD j ("", ⟨"", ""⟩)).2 with
      | false => rfl
      | true =>
        have hw := ((timeMatches_iff t _).mp hb).2
        have hj5 : j < 5 := lt_trans hj hsi
        exact absurd ⟨hw, h1, h2⟩ (slots_disjoint t j hj5 si hsi (Nat.ne_of_lt hj))

theorem row_contains (fa : String) (lessons : List Lesson) (l : Lesson) (hl : l ∈ lessons)
    {t : String} (ht : l.start_time = some t) {si : Nat} (hsi : si < 5)
    (h1 : (slotInfoAt si).start.data ≤ t.data)
    (h2 : t.data < (slotInfoAt si).«end».data) :
    strContains ((buildRow fa lessons).getD (si + 1) "") (lessonText l) := by
  have hfs : findSlot l.start_time TIME_SLOTS = some si := by
    rw [ht]
    exact (findSlot_eq_some_iff hsi).mpr ⟨h1, h2⟩
  have hmem : l ∈ slotLessons si lessons := by
    rw [slotLessons, List.mem_filter]
    exact ⟨hl, by simp [hfs]⟩
  have hne : slotLessons si lessons ≠ [] := by
    intro he
    rw [he] at hmem
    simp at hmem
  rw [cell_char fa si hsi, if_neg hne]
  exact strContains_joinSep _ (List.mem_map_of_mem _ hmem)

/-!
The claims.
-/

/-- C1: on every week-type page and weekday, a lesson whose `start_time`
string `t` satisfies `slot.start <= t < slot.end` for one of the five fixed
time slots is placed into that slot's grid cell — the cell's text contains
the lesson's formatted text — and the bound is half-open: a lesson starting
exactly at a slot's end time is not assigned to that slot by the search. -/
theorem c1_lesson_placed_in_matching_slot :
    (∀ (data : WeekData) (di : Nat), di < 5 →
      ∀ l ∈ (data (ENGLISH_WEEKDAYS.getD di "")).getD [],
      ∀ t : String, l.start_time = some t →
      ∀ si : Nat, si < 5 →
      (slotInfoAt si).start.data ≤ t.data →
      t.data < (slotInfoAt si).«end».data →
      strContains (((buildTable data).getD di []).getD (si + 1) "") (lessonText l)) ∧
    (∀ si : Nat, si < 5 →
      findSlot (some ((slotInfoAt si).«end»)) TIME_SLOTS ≠ some si) := by
  constructor
  · intro data di hdi l hl t ht si hsi h1 h2
    rw [buildTable_getD data di hdi]
    exact row_contains _ _ l hl ht hsi h1 h2
  · decide

theorem c1_lesson_placed_in_matching_slot_witness :
    strContains
      (((buildTable (fun k =>
          if k = "saturday" then some [⟨some "ریاضی", some "کلاس ۱", some "08:30"⟩]
          else none)).getD 0 []).getD 1 "")
      (lessonText ⟨some "ریاضی", some "کلاس ۱", some "08:30"⟩) ∧
    findSlot (some ((slotInfoAt 0).«end»)) TIME_SLOTS ≠ some 0 := by
  constructor
  · exact c1_lesson_placed_in_matching_slot.1 _ 0 (by decide) _ (by decide) "08:30" rfl 0
      (by decide) (by decide) (by decide)
  · exact c1_lesson_placed_in_matching_slot.2 0 (by decide)

/-- C2: a time-slot cell of a weekday row for which no lesson of that day has
a `start_time` in the slot's half-open `[start, end)` window holds exactly
the placeholder string `'-'` in the produced table data. -/
theorem c2_empty_slot_is_dash (data : WeekData) (di : Nat) (hdi : di < 5)
    (si : Nat) (hsi : si < 5)
    (h : ∀ l ∈ (data (ENGLISH_WEEKDAYS.getD di "")).getD [],
      ∀ t : String, l.start_time = some t →
      ¬((slotInfoAt si).start.data ≤ t.data ∧ t.data < (slotInfoAt si).«end».data)) :
    ((buildTable data).getD di []).getD (si + 1) "" = "-" := by
  rw [buildTable_getD data di hdi, cell_char _ si hsi, if_pos]
  rw [slotLessons, List.filter_eq_nil_iff]
  intro l hl
  simp only [decide_eq_true_eq]
  intro hfs
  cases hst : l.start_time with
  | none => rw [hst, findSlot_none_start] at hfs; cases hfs
  | some t =>
    rw [hst] at hfs
    exact h l hl t hst ((findSlot_eq_some_iff hsi).mp hfs)

theorem c2_empty_slot_is_dash_witness :
    ((buildTable (fun k =>
        if k = "saturday" then some [⟨some "آز", some "سایت", some "12:30"⟩]
        else none)).getD 0 []).getD 3 "" = "-" := by
  have h := c2_empty_slot_is_dash
    (fun k => if k = "saturday" then some [⟨some "آز", some "سایت", some "12:30"⟩] else none)
    0 (by decide) 2 (by decide) ?_
  · exact h
  · intro l hl t ht
    have hl' : l = ⟨some "آز", some "سایت", some "12:30"⟩ := by
      simpa [ENGLISH_WEEKDAYS] using hl
    subst hl'
    cases ht
    decide

/-- C3: when two or more lessons of the same day fall in the same time
slot's window, that slot's cell is their formatted texts concatenated in
input order, separated by `'\n---\n'`. -/
theorem c3_shared_slot_concatenation (data : WeekData) (di : Nat) (hdi : di < 5)
    (si : Nat) (hsi : si < 5)
    (h : 2 ≤ (((data (ENGLISH_WEEKDAYS.getD di "")).getD []).filter
        (inSlotWindow si)).length) :
    ((buildTable data).getD di []).getD (si + 1) "" =
      joinSep "\n---\n"
        ((((data (ENGLISH_WEEKDAYS.getD di "")).getD []).filter
            (inSlotWindow si)).map lessonText) := by
  have hcong : ∀ l ∈ (data (ENGLISH_WEEKDAYS.getD di "")).getD [],
      inSlotWindow si l = decide (findSlot l.start_time TIME_SLOTS = some si) := by
    intro l _
    cases hst : l.start_time with
    | none => simp [inSlotWindow, hst, findSlot_none_start]
    | some t =>
      simp only [inSlotWindow, hst, pyStrLe, pyStrLt]
      rw [← Bool.decide_and]
      exact decide_eq_decide.mpr (findSlot_eq_some_iff hsi).symm
  have hfe : ((data (ENGLISH_WEEKDAYS.getD di "")).getD []).filter (inSlotWindow si) =
      slotLessons si ((data (ENGLISH_WEEKDAYS.getD di "")).getD []) := by
    rw [slotLessons]
    exact List.filter_congr hcong
  rw [hfe] at h ⊢
  have hne : slotLessons si ((data (ENGLISH_WEEKDAYS.getD di "")).getD []) ≠ [] := by
    intro he
    rw [he] at h
    simp at h
  rw [buildTable_getD data di hdi, cell_char _ si hsi, if_neg hne]

theorem c3_shared_slot_concatenation_witness :
    ((buildTable (fun k =>
        if k = "saturday"
        then some [⟨some "ریاضی", some "الف", some "08:15"⟩,
                   ⟨some "فیزیک", some "ب", some "09:00"⟩]
        else none)).getD 0 []).getD 1 "" =
      joinSep "\n---\n"
        (((([⟨some "ریاضی", some "الف", some "08:15"⟩,
             ⟨some "فیزیک", some "ب", some "09:00"⟩] : List Lesson)).filter
            (inSlotWindow 0)).map lessonText) := by
  exact c3_shared_slot_concatenation _ 0 (by decide) 0 (by decide) (by decide)

/-- C8: a lesson whose `start_time` is missing, empty, or in no slot's
half-open window is silently dropped: no error is raised (the construction
is total) and the row is exactly the row built without that lesson. -/
theorem c8_unmatched_lesson_silently_omitted (fa : String) (pre post : List Lesson)
    (l : Lesson)
    (h : l.start_time = none ∨ l.start_time = some "" ∨
      (∃ t, l.start_time = some t ∧
        ∀ p ∈ TIME_SLOTS, ¬(p.2.start.data ≤ t.data ∧ t.data < p.2.«end».data))) :
    buildRow fa (pre ++ l :: post) = buildRow fa (pre ++ post) := by
  have hfs : findSlot l.start_time TIME_SLOTS = none := by
    rcases h with h | h | ⟨t, ht, hno⟩
    · rw [h]
      exact findSlot_none_start
    · rw [h]
      decide
    · rw [ht]
      apply findSlot_eq_none_of
      intro s hs
      cases hb : timeMatches (some t) s.2 with
      | false => rfl
      | true =>
        obtain ⟨_, hw⟩ := (timeMatches_iff t s.2).mp hb
        exact absurd hw (hno s hs)
  have hplace : ∀ row : List String, placeLesson row l = row := by
    intro row
    unfold placeLesson
    rw [hfs]
  rw [buildRow, buildRow, List.foldl_append, List.foldl_append, List.foldl_cons, hplace]

theorem c8_unmatched_lesson_silently_omitted_witness :
    buildRow "شنبه" ([⟨some "ریاضی", some "الف", some "08:30"⟩] ++
        ⟨some "ورزش", some "سالن", some "12:30"⟩ :: []) =
      buildRow "شنبه" ([⟨some "ریاضی", some "الف", some "08:30"⟩] ++ []) := by
  apply c8_unmatched_lesson_silently_omitted
  right
  right
  exact ⟨"12:30", rfl, by decide⟩

/-- C9: lessons land in at most one cell: the five slot windows are pairwise
disjoint, one `placeLesson` step either leaves the row unchanged or changes
only the single cell of the first matching slot, and the row built from a
single matched lesson carries its text in exactly one time-slot cell. -/
theorem c9_at_most_one_cell :
    (∀ t : String, ∀ i, i < 5 → ∀ j, j < 5 → i ≠ j →
      ¬(((slotInfoAt i).start.data ≤ t.data ∧ t.data < (slotInfoAt i).«end».data) ∧
        ((slotInfoAt j).start.data ≤ t.data ∧ t.data < (slotInfoAt j).«end».data))) ∧
    (∀ (row : List String) (l : Lesson),
      placeLesson row l = row ∨
      ∃ i, findSlot l.start_time TIME_SLOTS = some i ∧ i < 5 ∧
        ∀ j, j ≠ i + 1 → (placeLesson row l).getD j "" = row.getD j "") ∧
    (∀ (fa : String) (l : Lesson) (t : String), l.start_time = some t →
      ∀ si, si < 5 →
      (slotInfoAt si).start.data ≤ t.data → t.data < (slotInfoAt si).«end».data →
      (buildRow fa [l]).getD (si + 1) "" = lessonText l ∧
      ∀ sj, sj < 5 → sj ≠ si → (buildRow fa [l]).getD (sj + 1) "" = "-") := by
  refine ⟨slots_disjoint, ?_, ?_⟩
  · intro row l
    cases hfs : findSlot l.start_time TIME_SLOTS with
    | none =>
      left
      unfold placeLesson
      rw [hfs]
    | some i =>
      right
      refine ⟨i, rfl, ?_, ?_⟩
      · have := (findSlot_isSome_matches hfs).1
        rwa [TIME_SLOTS_length] at this
      · intro j hj
        apply placeLesson_getD_untouched
        intro i' hi'
        rw [hfs] at hi'
        cases hi'
        exact hj
  · intro fa l t ht si hsi h1 h2
    have hfs : findSlot l.start_time TIME_SLOTS = some si := by
      rw [ht]
      exact (findSlot_eq_some_iff hsi).mpr ⟨h1, h2⟩
    constructor
    · rw [cell_char fa si hsi]
      have hsl : slotLessons si [l] = [l] := by
        simp [slotLessons, List.filter, hfs]
      rw [hsl, if_neg (by simp), List.map_cons, List.map_nil]
      rfl
    · intro sj hsj hne
      rw [cell_char fa sj hsj, if_pos]
      simp only [slotLessons, List.filter_eq_nil_iff]
      intro a ha
      rw [List.mem_singleton] at ha
      subst ha
      simp only [decide_eq_true_eq, hfs]
      intro he
      cases he
      exact hne rfl

theorem c9_at_most_one_cell_witness :
    (buildRow "شنبه" [⟨some "ریاضی", some "الف", some "10:30"⟩]).getD 2 "" =
      lessonText ⟨some "ریاضی", some "الف", some "10:30"⟩ ∧
    (buildRow "شنبه" [⟨some "ریاضی", some "الف", some "10:30"⟩]).getD 1 "" = "-" := by
  have h := c9_at_most_one_cell.2.2 "شنبه" ⟨some "ریاضی", some "الف", some "10:30"⟩
    "10:30" rfl 1 (by decide) (by decide) (by decide)
  exact ⟨h.1, h.2 0 (by decide) (by decide)⟩

/-- C10: only the five weekday keys are consulted: week schedules that agree
on `'saturday'` … `'wednesday'` produce identical table data, and a day key
absent from the mapping yields its day name followed by five `'-'` cells. -/
theorem c10_only_weekday_keys_consulted :
    (∀ d1 d2 : WeekData, (∀ k ∈ ENGLISH_WEEKDAYS, d1 k = d2 k) →
      buildTable d1 = buildTable d2) ∧
    (∀ (d : WeekData) (di : Nat), di < 5 →
      d (ENGLISH_WEEKDAYS.getD di "") = none →
      (buildTable d).getD di [] =
        PERSIAN_WEEKDAYS.getD di "" :: List.replicate 5 "-") := by
  constructor
  · intro d1 d2 h
    have h1 := h "saturday" (by simp [ENGLISH_WEEKDAYS])
    have h2 := h "sunday" (by simp [ENGLISH_WEEKDAYS])
    have h3 := h "monday" (by simp [ENGLISH_WEEKDAYS])
    have h4 := h "tuesday" (by simp [ENGLISH_WEEKDAYS])
    have h5 := h "wednesday" (by simp [ENGLISH_WEEKDAYS])
    simp only [buildTable, ENGLISH_WEEKDAYS, PERSIAN_WEEKDAYS, List.zip, List.zipWith,
      List.map]
    rw [h1, h2, h3, h4, h5]
  · intro d di hdi hnone
    rw [buildTable_getD d di hdi, hnone]
    rfl

theorem c10_only_weekday_keys_consulted_witness :
    buildTable (fun k =>
        if k = "thursday" then some [⟨some "جبر", some "الف", some "08:30"⟩] else none) =
      buildTable (fun _ => none) ∧
    (buildTable (fun k =>
        if k = "thursday" then some [⟨some "جبر", some "الف", some "08:30"⟩]
        else none)).getD 0 [] =
      PERSIAN_WEEKDAYS.getD 0 "" :: List.replicate 5 "-" := by
  constructor
  · apply c10_only_weekday_keys_consulted.1
    intro k hk
    fin_cases hk <;> decide
  · exact c10_only_weekday_keys_consulted.2 _ 0 (by decide) (by decide)

/-- C4: the produced document is a byte sequence rendering one page per week
type — the odd-week page first, then the even-week page — each carrying a
table of 5 weekday rows of one day-name column plus 5 time-slot columns
(and a matching 6-entry header row). -/
theorem c4_two_pages_fixed_grid (u : UserData) :
    (generate_schedule_pdf u).pages.length = 2 ∧
    ((generate_schedule_pdf u).pages.getD 0 emptyPage).label = "فرد" ∧
    ((generate_schedule_pdf u).pages.getD 0 emptyPage).table =
      buildTable ((u.schedule.getD emptySchedule).odd_week_schedule.getD emptyWeekData) ∧
    ((generate_schedule_pdf u).pages.getD 1 emptyPage).label = "زوج" ∧
    ((generate_schedule_pdf u).pages.getD 1 emptyPage).table =
      buildTable ((u.schedule.getD emptySchedule).even_week_schedule.getD emptyWeekData) ∧
    (∀ p ∈ (generate_schedule_pdf u).pages,
      p.headers.length = 6 ∧ p.table.length = 5 ∧ ∀ row ∈ p.table, row.length = 6) ∧
    (∀ b ∈ renderBytes (generate_schedule_pdf u), b < 256) := by
  refine ⟨rfl, rfl, rfl, rfl, rfl, ?_, ?_⟩
  · intro p hp
    have htab : ∀ data : WeekData, (buildTable data).length = 5 ∧
        ∀ row ∈ buildTable data, row.length = 6 := by
      intro data
      constructor
      · rfl
      · intro row hrow
        simp only [buildTable, ENGLISH_WEEKDAYS, PERSIAN_WEEKDAYS, List.zip,
          List.zipWith, List.map, List.mem_cons, List.not_mem_nil, or_false] at hrow
        rcases hrow with h | h | h | h | h <;> rw [h] <;> exact buildRow_length _ _
    simp only [generate_schedule_pdf, List.map, List.mem_cons, List.not_mem_nil,
      or_false] at hp
    rcases hp with h | h <;> subst h <;>
      exact ⟨rfl, (htab _).1, (htab _).2⟩
  · intro b hb
    rw [renderBytes] at hb
    obtain ⟨u8, _, rfl⟩ := List.mem_map.mp hb
    have := UInt8.toNat_lt u8
    omega

theorem c4_two_pages_fixed_grid_witness :
    ((generate_schedule_pdf ⟨none, none⟩).pages.getD 0 emptyPage).table.length = 5 := by
  have h := c4_two_pages_fixed_grid ⟨none, none⟩
  have hmem : (generate_schedule_pdf ⟨none, none⟩).pages.getD 0 emptyPage ∈
      (generate_schedule_pdf ⟨none, none⟩).pages := by
    decide
  exact (h.2.2.2.2.2.1 _ hmem).2.1

/-- C5: a lesson entry with a missing `lesson` field renders with the
placeholder `درس نامشخص`, and a missing `location` field with `-`, in the
cell text; building the text is total, so no exception arises. -/
theorem c5_missing_field_placeholders (les loc st : Option String) :
    lessonText ⟨none, loc, st⟩ = "درس نامشخص" ++ "\n" ++ loc.getD "-" ∧
    lessonText ⟨les, none, st⟩ = les.getD "درس نامشخص" ++ "\n" ++ "-" ∧
    lessonText ⟨none, none, st⟩ = "درس نامشخص" ++ "\n" ++ "-" :=
  ⟨rfl, rfl, rfl⟩

/-- C6: when loading the Vazirmatn font fails, `header` prints the error to
stderr and falls back to Arial, `footer` falls back to Arial silently, no
exception escapes (both return a final state for every outcome of the font
calls), and the page text is still written in full. -/
theorem c6_font_fallback (e full_name week_label week_emoji : String) (st : PdfState) :
    (header (Except.error e) full_name week_label week_emoji st).font_family = "Arial" ∧
    (header (Except.error e) full_name week_label week_emoji st).stderr =
      st.stderr ++ ["Error loading font: " ++ e] ∧
    (header (Except.error e) full_name week_label week_emoji st).cells =
      st.cells ++ ["برنامه هفتگی", "نام: " ++ full_name,
        "هفته " ++ week_label ++ " " ++ week_emoji] ∧
    (header (Except.ok ()) full_name week_label week_emoji st).font_family = "Vazir" ∧
    (header (Except.ok ()) full_name week_label week_emoji st).stderr = st.stderr ∧
    (footer false st).font_family = "Arial" ∧
    (footer false st).stderr = st.stderr ∧
    (footer false st).cells =
      st.cells ++ ["@WeekStatusBot", "صفحه " ++ toString st.page_no ++ "/\x7bnb\x7d"] ∧
    (footer true st).font_family = "Vazir" := by
  refine ⟨rfl, rfl, ?_, rfl, rfl, rfl, rfl, ?_, rfl⟩
  · simp [header, writeCell, set_font]
  · simp [footer, writeCell, set_font]

/-!
Lexicographic comparison of zero-padded clock strings agrees with numeric
time order (claim C7).
-/

theorem char_lt_iff (c d : Char) : c < d ↔ c.toNat < d.toNat := Iff.rfl

theorem char_eq_iff (c d : Char) : c = d ↔ c.toNat = d.toNat :=
  ⟨fun h => h ▸ rfl, fun h => Char.ext (UInt32.ext h)⟩

theorem char_digit_bounds {c : Char} (h : c.isDigit = true) :
    48 ≤ c.toNat ∧ c.toNat ≤ 57 := by
  simp only [Char.isDigit, Bool.and_eq_true, decide_eq_true_eq] at h
  exact ⟨h.1, h.2⟩

theorem lex_cons_iff {a b : Char} {l₁ l₂ : List Char} :
    List.Lex (fun x y => x < y) (a :: l₁) (b :: l₂) ↔
      a < b ∨ (a = b ∧ List.Lex (fun x y => x < y) l₁ l₂) := by
  constructor
  · intro h
    cases h with
    | cons h => exact Or.inr ⟨rfl, h⟩
    | rel h => exact Or.inl h
  · rintro (h | ⟨rfl, h⟩)
    · exact List.Lex.rel h
    · exact List.Lex.cons h

theorem isHHMM_of_b {t : String} (h : isHHMMb t = true) : isHHMM t := by
  unfold isHHMMb at h
  split at h
  · rename_i h1 h2 c m1 m2 heq
    simp only [Bool.and_eq_true, decide_eq_true_eq] at h
    obtain ⟨⟨⟨⟨⟨hd1, hd2⟩, hc⟩, hd3⟩, hd4⟩, hm⟩ := h
    subst hc
    exact ⟨h1, h2, m1, m2, heq, hd1, hd2, hd3, hd4, hm⟩
  · cases h

theorem hhmm_ne_empty {t : String} (h : isHHMM t) : t ≠ "" := by
  obtain ⟨h1, h2, m1, m2, hd, _⟩ := h
  intro he
  subst he
  simp at hd

theorem toMinutes_eq {t : String} {h1 h2 c m1 m2 : Char}
    (ht : t.data = [h1, h2, c, m1, m2]) :
    toMinutes t =
      60 * (10 * digitVal h1 + digitVal h2) + (10 * digitVal m1 + digitVal m2) := by
  simp [toMinutes, ht]

theorem hhmm_lt_iff {t u : String} (ht : isHHMM t) (hu : isHHMM u) :
    t.data < u.data ↔ toMinutes t < toMinutes u := by
  obtain ⟨a1, a2, b1, b2, hdt, ha1, ha2, hb1, hb2, hmt⟩ := ht
  obtain ⟨c1, c2, d1, d2, hdu, hc1, hc2, hd1, hd2, hmu⟩ := hu
  rw [toMinutes_eq hdt, toMinutes_eq hdu]
  have hlex : t.data < u.data ↔ List.Lex (fun x y => x < y) t.data u.data := Iff.rfl
  rw [hlex, hdt, hdu, lex_cons_iff, lex_cons_iff, lex_cons_iff, lex_cons_iff,
    lex_cons_iff]
  have hnil : (List.Lex (fun x y : Char => x < y) [] []) ↔ False :=
    iff_false_intro (List.Lex.not_nil_right _ _)
  rw [hnil]
  simp only [lt_self_iff_false, eq_self_iff_true, true_and, false_or, and_false,
    or_false]
  obtain ⟨hA1, hA1u⟩ := char_digit_bounds ha1
  obtain ⟨hA2, hA2u⟩ := char_digit_bounds ha2
  obtain ⟨hB1, hB1u⟩ := char_digit_bounds hb1
  obtain ⟨hB2, hB2u⟩ := char_digit_bounds hb2
  obtain ⟨hC1, hC1u⟩ := char_digit_bounds hc1
  obtain ⟨hC2, hC2u⟩ := char_digit_bounds hc2
  obtain ⟨hD1, hD1u⟩ := char_digit_bounds hd1
  obtain ⟨hD2, hD2u⟩ := char_digit_bounds hd2
  simp only [char_lt_iff, char_eq_iff, digitVal] at hmt hmu ⊢
  omega

theorem hhmm_le_iff {t u : String} (ht : isHHMM t) (hu : isHHMM u) :
    t.data ≤ u.data ↔ toMinutes t ≤ toMinutes u := by
  have hlt := hhmm_lt_iff hu ht
  constructor
  · intro h
    exact Nat.le_of_not_lt (fun hc => absurd (hlt.mpr hc) (not_lt.mpr h))
  · intro h
    exact le_of_not_lt (fun hc => absurd (hlt.mp hc) (Nat.not_lt.mpr h))

theorem boundaries_HHMM : ∀ p ∈ TIME_SLOTS, isHHMM p.2.start ∧ isHHMM p.2.«end» := by
  intro p hp
  fin_cases hp <;> exact ⟨isHHMM_of_b (by decide), isHHMM_of_b (by decide)⟩

/-- C7: slot matching compares the lesson's start time against the slot
boundary strings lexicographically, and for a zero-padded `HH:MM` start time
the comparison against each of the fixed boundaries agrees with numeric
time ordering, so the slot decision equals the numeric slot decision. -/
theorem c7_lexicographic_matches_numeric (t : String) (ht : isHHMM t) :
    ∀ p ∈ TIME_SLOTS,
      timeMatches (some t) p.2 =
        (decide (toMinutes p.2.start ≤ toMinutes t) &&
          decide (toMinutes t < toMinutes p.2.«end»)) := by
  intro p hp
  obtain ⟨hs, he⟩ := boundaries_HHMM p hp
  have hne : t ≠ "" := hhmm_ne_empty ht
  simp only [timeMatches, pyStrLe, pyStrLt]
  rw [decide_eq_true hne, Bool.true_and]
  rw [decide_eq_decide.mpr (hhmm_le_iff hs ht),
    decide_eq_decide.mpr (hhmm_lt_iff ht he)]

theorem c7_lexicographic_matches_numeric_witness :
    timeMatches (some "09:30") (⟨"08:00", "10:00"⟩ : SlotInfo) =
      (decide (toMinutes "08:00" ≤ toMinutes "09:30") &&
        decide (toMinutes "09:30" < toMinutes "10:00")) := by
  exact c7_lexicographic_matches_numeric "09:30" (isHHMM_of_b (by decide))
    ("کلاس اول", ⟨"08:00", "10:00"⟩) (by decide)
